import Mathlib

/-!
Shallow embedding of `vip/calib/rescaling.py` (frame/cube resampling and
radial rescaling utilities) and verification of its specification.

Conventions of the embedding:
* Real-valued pixels and scale factors are modelled as rationals (`ℚ`).
* A 2d numpy array (a frame) is a `List (List ℚ)`; a 3d array (a cube) is a
  `List (List (List ℚ))`; `NDArr` packages the possible ranks so that the
  rank checks (`array.ndim == 2`, `array.ndim == 3`) can be expressed.
* Fallible code returns `Except Err`.  The module's own eager input
  validation (`raise TypeError` / `raise ValueError` on bad rank, bad
  interpolation name, bad method name, bad container kind) is
  `Err.invalidInput`; every other runtime failure (errors raised inside the
  numeric backends, broadcast mismatches, the `gamma` keyword mismatch in
  `cube_rescaling`, index errors) is `Err.runtime`.
* The interpolation backends (`cv2.resize` pixel values,
  `scipy.ndimage.geometric_transform` spline evaluation, `cv2.warpAffine`)
  are opaque collaborators: their pixel values are supplied as explicit
  function parameters (`ResizeKern`, `SplineEval`, `WarpEval`), while their
  shape behaviour (output sizes, error conditions) is modelled exactly.
* `check_scal_vector` mutates an `np.ndarray` argument in place, so its
  embedding returns both the result and the post-call content of the
  caller's container (`ScalVecIn`): explicit state passing for the one
  heap effect in the module.
-/

namespace VIPRescaling

/-- Errors surfaced by the module.  `invalidInput` is the spec's InvalidInput
taxonomy (the module's own eager `TypeError`/`ValueError` validations);
`runtime` is any other runtime failure (backend errors, broadcast
mismatches, bad keyword arguments, index errors). -/
inductive Err : Type where
  | invalidInput : String → Err
  | runtime : String → Err
deriving DecidableEq

/-- A frame: 2d numeric array, row-major. -/
abbrev Frame : Type := List (List ℚ)

/-- A cube: stack of frames, axis 0 is the frame index. -/
abbrev Cube : Type := List Frame

/-- A numpy array of rank 1, 2 or 3 (the only ranks this module meets). -/
inductive NDArr : Type where
  | arr1 : List ℚ → NDArr
  | arr2 : Frame → NDArr
  | arr3 : Cube → NDArr
deriving DecidableEq

/-- `array.ndim`. -/
def NDArr.ndim : NDArr → ℕ
  | .arr1 _ => 1
  | .arr2 _ => 2
  | .arr3 _ => 3

/-- Number of rows of a frame (`shape[0]`). -/
def rows (m : Frame) : ℕ := m.length

/-- Number of columns of a frame (`shape[1]`): length of its first row. -/
def cols (m : Frame) : ℕ := (m.headD []).length

/-- Builds an `r × c` frame whose entry at `(i, j)` is `f i j`. -/
def grid (r c : ℕ) (f : ℕ → ℕ → ℚ) : Frame :=
  (List.range r).map (fun i => (List.range c).map (f i))

/-- `np.amin` over a 1d array: `none` on the empty array (numpy raises
"zero-size array to reduction operation"). -/
def minList : List ℚ → Option ℚ
  | [] => none
  | q :: t => some (t.foldl min q)

/-- `np.amax` over a 1d array: `none` on the empty array. -/
def maxList : List ℚ → Option ℚ
  | [] => none
  | q :: t => some (t.foldl max q)

/-- OpenCV's `saturate_cast<int>` of a nonnegative double: round half to
even (`cvRound`), used by `cv2.resize` to derive the destination size from
`fx`/`fy`. -/
def cvRound (q : ℚ) : ℤ :=
  if q - ⌊q⌋ < 1/2 then ⌊q⌋
  else if 1/2 < q - ⌊q⌋ then ⌊q⌋ + 1
  else if ⌊q⌋ % 2 = 0 then ⌊q⌋ else ⌊q⌋ + 1

/-- Pixel values produced by `cv2.resize`: given the source frame, the scale
factor, the interpolation name and an output position, the backend yields
the interpolated value.  Opaque collaborator. -/
abbrev ResizeKern : Type := Frame → ℚ → String → ℕ → ℕ → ℚ

/-- The three interpolation names `frame_px_resampling` recognizes (the
`if/elif` chain mapping them to cv2 constants). -/
def recognizedInterp (interpolation : String) : Bool :=
  interpolation = "bilinear" || interpolation = "bicubic" ||
    interpolation = "nearneig"

/-- `cv2.resize(src, (0,0), fx=s, fy=s, interpolation=intp)`: destination
size is `(cvRound(rows*s), cvRound(cols*s))`; OpenCV raises (modelled as
`Err.runtime`) on an empty source or an empty destination. -/
def cv2_resize (kern : ResizeKern) (m : Frame) (s : ℚ) (interpolation : String) :
    Except Err Frame :=
  if rows m = 0 ∨ cols m = 0 then
    .error (.runtime "cv2.resize: empty source array")
  else
    let dr : ℤ := cvRound ((rows m : ℚ) * s)
    let dc : ℤ := cvRound ((cols m : ℚ) * s)
    if dr ≤ 0 ∨ dc ≤ 0 then .error (.runtime "cv2.resize: empty dsize")
    else .ok (grid dr.toNat dc.toNat (kern m s interpolation))

/-- `frame_px_resampling(array, scale, interpolation)`: checks
`array.ndim == 2` (else `TypeError`), resolves the interpolation name (else
`TypeError`), then delegates to `cv2.resize` with `fx = fy = scale`. -/
def frame_px_resampling (kern : ResizeKern) (array : NDArr) (scale : ℚ)
    (interpolation : String) : Except Err Frame :=
  match array with
  | .arr2 m =>
      if recognizedInterp interpolation then cv2_resize kern m scale interpolation
      else .error (.invalidInput "Interpolation method not recognized.")
  | _ => .error (.invalidInput "Input array is not a frame or 2d array.")

/-- The per-frame loop of `cube_px_resampling`: each output frame is
produced by `frame_px_resampling` and assigned into the preallocated
`(oy, ox)` slice; numpy raises (modelled as `Err.runtime`) when the shapes
do not match (`could not broadcast`). -/
def resampleFrames (kern : ResizeKern) (scale : ℚ) (interpolation : String)
    (oy ox : ℕ) : List Frame → Except Err (List Frame)
  | [] => .ok []
  | f :: fs =>
      match frame_px_resampling kern (.arr2 f) scale interpolation with
      | .error e => .error e
      | .ok r =>
          if r.length = oy ∧ r.all (fun row => row.length = ox) then
            match resampleFrames kern scale interpolation oy ox fs with
            | .error e => .error e
            | .ok rs => .ok (r :: rs)
          else .error (.runtime "could not broadcast input array")

/-- `cube_px_resampling(array, scale, interpolation)`: checks
`array.ndim == 3` (else `TypeError`), allocates
`np.zeros((n, int(y*scale), int(x*scale)))` (`int` truncates; numpy raises
on a negative dimension), then fills it frame by frame via
`frame_px_resampling`. -/
def cube_px_resampling (kern : ResizeKern) (array : NDArr) (scale : ℚ)
    (interpolation : String) : Except Err Cube :=
  match array with
  | .arr3 c =>
      let y : ℕ := rows (c.headD [])
      let x : ℕ := cols (c.headD [])
      if (y : ℚ) * scale < 0 ∨ (x : ℚ) * scale < 0 then
        .error (.runtime "negative dimensions are not allowed")
      else
        resampleFrames kern scale interpolation
          (⌊(y : ℚ) * scale⌋).toNat (⌊(x : ℚ) * scale⌋).toNat c
  | _ => .error (.invalidInput "Input array is not a cube or 3d array.")

/-- Truthiness of an optional float argument: Python's
`not ref_y` is true for `None` and for `0` (and `0.0`). -/
def falsy : Option ℚ → Bool
  | none => true
  | some q => q = 0

/-- Modelled from the spec: `frame_center` lives in `vip/var`, which is not
under `src/`.  Per the spec's data model, the reference point "defaults to
the frame's geometric center (odd-sized frames: the central pixel)", i.e.
`((rows - 1)/2, (cols - 1)/2)` in pixel coordinates. -/
def frame_center (r c : ℕ) : ℚ × ℚ := (((r : ℚ) - 1) / 2, ((c : ℚ) - 1) / 2)

/-- The reference-point defaulting line shared by `frame_rescaling` and
`cube_rescaling`: `if not ref_y and not ref_x: ref_y, ref_x = center`.
When both coordinates are falsy the center is used; otherwise the given
coordinates are kept — and if one of them is still `None`, the later
arithmetic on it raises (`none` here). -/
def resolveRef (ref_y ref_x : Option ℚ) (center : ℚ × ℚ) : Option (ℚ × ℚ) :=
  if falsy ref_y ∧ falsy ref_x then some center
  else
    match ref_y, ref_x with
    | some a, some b => some (a, b)
    | _, _ => none

/-- `_scale_func(output_coords, ref_y, ref_x, scaling)`: inverse mapping of
an output coordinate to the source coordinate
`(ref_y + (oy - ref_y)/scaling, ref_x + (ox - ref_x)/scaling)`. -/
def scale_func (ref_y ref_x scaling : ℚ) (oc : ℚ × ℚ) : ℚ × ℚ :=
  (ref_y + (oc.1 - ref_y) / scaling, ref_x + (oc.2 - ref_x) / scaling)

/-- Spline evaluation performed by `scipy.ndimage.geometric_transform`:
given the source frame and a (real-valued) source coordinate, yields the
order-3 spline interpolated value.  Opaque collaborator. -/
abbrev SplineEval : Type := Frame → ℚ × ℚ → ℚ

/-- A 2×3 affine matrix, rows `(a, b, c)` meaning `a*x + b*y + c`. -/
abbrev Mat23 : Type := (ℚ × ℚ × ℚ) × (ℚ × ℚ × ℚ)

/-- Pixel values produced by `cv2.warpAffine` with `INTER_LINEAR`: given the
source frame, the affine matrix and an output position, yields the warped
value.  Opaque collaborator. -/
abbrev WarpEval : Type := Frame → Mat23 → ℕ → ℕ → ℚ

/-- The affine matrix `M = [[scale, 0, (1-scale)*ref_x],
[0, scale, (1-scale)*ref_y]]` built by the `cv2.warp_affine` branch of
`frame_rescaling`. -/
def warpMatrix (scale ref_x ref_y : ℚ) : Mat23 :=
  ((scale, 0, (1 - scale) * ref_x), (0, scale, (1 - scale) * ref_y))

/-- `frame_rescaling(array, ref_y, ref_x, scale, method)`: defaults the
reference point via the falsy check, then either evaluates the spline at
`_scale_func` of every output coordinate (`geometric_transform`, output
shape = input shape), or applies `cv2.warpAffine` with `warpMatrix`
(destination size `(shape[1], shape[0])`), or raises `ValueError` for an
unrecognized method.  A non-2d array makes both interpolation backends
raise (modelled as `Err.runtime`); `scale = 0` raises `ZeroDivisionError`
inside `_scale_func`. -/
def frame_rescaling (spline : SplineEval) (warp : WarpEval) (array : NDArr)
    (ref_y ref_x : Option ℚ) (scale : ℚ) (method : String) :
    Except Err Frame :=
  match array with
  | .arr2 m =>
      match resolveRef ref_y ref_x (frame_center (rows m) (cols m)) with
      | none =>
          if method = "geometric_transform" ∨ method = "cv2.warp_affine" then
            .error (.runtime "unsupported operand type: NoneType reference")
          else
            .error (.invalidInput
              "Pick a valid method: geometric_transform or cv2.warp_affine")
      | some (ry, rx) =>
          if method = "geometric_transform" then
            if scale = 0 then .error (.runtime "float division by zero")
            else
              .ok (grid (rows m) (cols m)
                (fun oy ox => spline m (scale_func ry rx scale ((oy : ℚ), (ox : ℚ)))))
          else if method = "cv2.warp_affine" then
            .ok (grid (rows m) (cols m)
              (fun oy ox => warp m (warpMatrix scale rx ry) oy ox))
          else
            .error (.invalidInput
              "Pick a valid method: geometric_transform or cv2.warp_affine")
  | _ =>
      if method = "geometric_transform" ∨ method = "cv2.warp_affine" then
        .error (.runtime "rank mismatch in interpolation backend")
      else
        .error (.invalidInput
          "Pick a valid method: geometric_transform or cv2.warp_affine")

/-- `cube_rescaling(array, scaling_list, ref_y, ref_x, method)`: checks
`array.ndim == 3` (else `TypeError`), allocates `np.zeros_like`, defaults
the reference point from `frame_center(array[0])` (an `IndexError` on an
empty cube), then runs `for i in xrange(n): array_sc[i] =
frame_rescaling(array[i], ref_y=ref_y, ref_x=ref_x, gamma=scaling_list[i],
method=method)`.  That loop always raises: under Python 3 the name
`xrange` is undefined, and under Python 2 `frame_rescaling` declares no
parameter named `gamma` (its parameter is `scale`), so no frame is ever
rescaled and the trailing `np.median` is never reached (on an empty cube
the loop body is skipped but the reduction over zero frames raises). -/
def cube_rescaling (array : NDArr) (scaling_list : List ℚ)
    (ref_y ref_x : Option ℚ) (method : String) : Except Err (Cube × Frame) :=
  match array with
  | .arr3 c =>
      if falsy ref_y ∧ falsy ref_x ∧ c = [] then
        .error (.runtime "index 0 is out of bounds for axis 0 with size 0")
      else
        let _ := resolveRef ref_y ref_x
          (frame_center (rows (c.headD [])) (cols (c.headD [])))
        let _ := scaling_list
        let _ := method
        .error (.runtime
          "per-frame loop raises: name xrange is not defined / frame_rescaling got an unexpected keyword argument gamma")
  | _ => .error (.invalidInput "Input array is not a cube or 3d array.")

/-- Containers accepted by `check_scal_vector`: a plain Python list, an
`np.ndarray` (identified by its content), or anything else. -/
inductive ScalVecIn : Type where
  | list : List ℚ → ScalVecIn
  | array : List ℚ → ScalVecIn
  | other : ScalVecIn
deriving DecidableEq

/-- The numeric entries held by a `check_scal_vector` argument. -/
def ScalVecIn.entries : ScalVecIn → List ℚ
  | .list l => l
  | .array v => v
  | .other => []

/-- `check_scal_vector(scal_vec)`: a list is copied into a fresh
`np.zeros(nz)` array and `correct` is set; an ndarray is used as is and
`correct` is set when its minimum is `< 1`; anything else raises
`TypeError`.  When `correct`, every entry of that array is divided by the
minimum **in place** — for an ndarray argument this overwrites the
caller's array.  The embedding returns the result together with the
post-call content of the caller's container (second component), making the
in-place mutation explicit.  `np.amin` of an empty vector raises. -/
def check_scal_vector (scal_vec : ScalVecIn) : Except Err (List ℚ × ScalVecIn) :=
  match scal_vec with
  | .list l =>
      match minList l with
      | none => .error (.runtime "zero-size array to reduction operation")
      | some m => .ok (l.map (fun q => q / m), .list l)
  | .array v =>
      match minList v with
      | none => .error (.runtime "zero-size array to reduction operation")
      | some m =>
          if m < 1 then .ok (v.map (fun q => q / m), .array (v.map (fun q => q / m)))
          else .ok (v, .array v)
  | .other => .error (.invalidInput "scal_vec is neither a list or an np.ndarray")

/-- `np.pad(frame, ((py, py), (px, px)), mode=constant)` for a frame whose
rows have length `x`: `py` zero rows of the padded width above and below,
`px` zeros on each side of every row. -/
def padFrame (py px x : ℕ) (f : Frame) : Frame :=
  let zrow : List ℚ := List.replicate (x + 2 * px) 0
  List.replicate py zrow ++
    f.map (fun row => List.replicate px 0 ++ row ++ List.replicate px 0) ++
    List.replicate py zrow

/-- `ceil` of `max_sc * d` adjusted by the parity rule of `scale_cube`:
`new = ceil(max_sc*d)`, then `if (new - d) % 2 != 0: new = new + 1`.  Note
the parity of the *difference* is tested, not the parity of `new`. -/
def ceilAdj (max_sc : ℚ) (d : ℕ) : ℕ :=
  let c : ℕ := (⌈max_sc * (d : ℚ)⌉).toNat
  if (c - d) % 2 ≠ 0 then c + 1 else c

/-- The padding stage of `scale_cube` (its first block): when not `inverse`
and `max(scal_list) > 1`, zero-pad every frame symmetrically to
`(ceilAdj max_sc y, ceilAdj max_sc x)`; otherwise work on a copy of the
cube.  `np.amax` of an empty scale vector raises. -/
def scale_cube_big (cube : Cube) (scal_list : List ℚ) (inverse : Bool) :
    Except Err Cube :=
  let y : ℕ := rows (cube.headD [])
  let x : ℕ := cols (cube.headD [])
  match maxList scal_list with
  | none => .error (.runtime "zero-size array to reduction operation")
  | some max_sc =>
      if ¬inverse ∧ 1 < max_sc then
        let ny : ℕ := ceilAdj max_sc y
        let nx : ℕ := ceilAdj max_sc x
        .ok (cube.map (padFrame ((ny - y) / 2) ((nx - x) / 2) x))
      else .ok cube

/-- The two result shapes of `scale_cube`: the full tuple
`(cube, frame, y, x, cy, cx)` or just the median frame. -/
inductive ScaleCubeOut : Type where
  | fullTuple : Cube → Frame → ℕ → ℕ → ℚ → ℚ → ScaleCubeOut
  | medianOnly : Frame → ScaleCubeOut
deriving DecidableEq

/-- `scale_cube(cube, scal_list, full_output, inverse, y_in, x_in)`: pads
via `scale_cube_big`, recomputes the center (an `IndexError` on an empty
padded cube), takes the reciprocal scale vector and the original center
when `inverse`, and calls `cube_rescaling` — whose per-frame loop always
raises (see `cube_rescaling`), so the inverse cropping via
`get_square_robust` below that call is unreachable. -/
def scale_cube (cube : Cube) (scal_list : List ℚ) (full_output inverse : Bool)
    (y_in x_in : ℕ) : Except Err ScaleCubeOut :=
  match scale_cube_big cube scal_list inverse with
  | .error e => .error e
  | .ok big =>
      if big = [] then
        .error (.runtime "index 0 is out of bounds for axis 0 with size 0")
      else
        let y : ℕ := rows (big.headD [])
        let x : ℕ := cols (big.headD [])
        let center : ℚ × ℚ :=
          if inverse then frame_center (rows (cube.headD [])) (cols (cube.headD []))
          else frame_center y x
        let var_list : List ℚ :=
          if inverse then scal_list.map (fun q => 1 / q) else scal_list
        match cube_rescaling (.arr3 big) var_list (some center.1) (some center.2)
            "cv2.warp_affine" with
        | .error e => .error e
        | .ok (c, f) =>
            let _ := (y_in, x_in)
            if full_output then .ok (.fullTuple c f y x center.1 center.2)
            else .ok (.medianOnly f)

/-! ### Helper lemmas about `minList` -/

theorem foldl_min_le_init (t : List ℚ) (q : ℚ) : t.foldl min q ≤ q := by
  induction t generalizing q with
  | nil => exact le_refl q
  | cons a t ih =>
      calc (a :: t).foldl min q = t.foldl min (min q a) := rfl
        _ ≤ min q a := ih (min q a)
        _ ≤ q := min_le_left q a

theorem foldl_min_le_mem (t : List ℚ) (q : ℚ) :
    ∀ p ∈ t, t.foldl min q ≤ p := by
  induction t generalizing q with
  | nil => intro p hp; exact absurd hp (List.not_mem_nil p)
  | cons a t ih =>
      intro p hp
      rcases List.mem_cons.mp hp with h | h
      · rw [h]
        calc (a :: t).foldl min q = t.foldl min (min q a) := rfl
          _ ≤ min q a := foldl_min_le_init t (min q a)
          _ ≤ a := min_le_right q a
      · exact ih (min q a) p h

theorem foldl_min_choice (t : List ℚ) (q : ℚ) :
    t.foldl min q = q ∨ t.foldl min q ∈ t := by
  induction t generalizing q with
  | nil => exact Or.inl rfl
  | cons a t ih =>
      rcases ih (min q a) with h | h
      · rcases min_choice q a with hq | ha
        · exact Or.inl (by simpa [hq] using h)
        · exact Or.inr (by simp [List.foldl_cons]; rw [h, ha]; exact .inl rfl)
      · exact Or.inr (List.mem_cons_of_mem a h)

theorem minList_le {l : List ℚ} {m : ℚ} (h : minList l = some m) :
    ∀ p ∈ l, m ≤ p := by
  cases l with
  | nil => simp [minList] at h
  | cons q t =>
      simp only [minList, Option.some.injEq] at h
      intro p hp
      rcases List.mem_cons.mp hp with hpq | hpt
      · subst hpq; rw [← h]; exact foldl_min_le_init t p
      · rw [← h]; exact foldl_min_le_mem t q p hpt

theorem minList_mem {l : List ℚ} {m : ℚ} (h : minList l = some m) : m ∈ l := by
  cases l with
  | nil => simp [minList] at h
  | cons q t =>
      simp only [minList, Option.some.injEq] at h
      rcases foldl_min_choice t q with hc | hc
      · rw [← h, hc]; exact List.mem_cons_self q t
      · rw [← h]; exact List.mem_cons_of_mem q hc

theorem minList_pos {l : List ℚ} {m : ℚ} (h : minList l = some m)
    (hpos : ∀ q ∈ l, 0 < q) : 0 < m := hpos m (minList_mem h)

theorem minList_of_ne_nil {l : List ℚ} (h : l ≠ []) :
    ∃ m, minList l = some m := by
  cases l with
  | nil => exact absurd rfl h
  | cons q t => exact ⟨t.foldl min q, rfl⟩

theorem foldl_min_map_div (t : List ℚ) (q c : ℚ) (hc : 0 ≤ c) :
    (t.map (fun p => p / c)).foldl min (q / c) = (t.foldl min q) / c := by
  induction t generalizing q with
  | nil => rfl
  | cons a t ih =>
      simp only [List.map_cons, List.foldl_cons]
      rw [min_div_div_right hc q a, ih (min q a)]

theorem minList_map_div (l : List ℚ) (c : ℚ) (hc : 0 ≤ c) :
    minList (l.map (fun q => q / c)) = (minList l).map (fun q => q / c) := by
  cases l with
  | nil => rfl
  | cons q t =>
      simp only [minList, List.map_cons, Option.map_some']
      rw [foldl_min_map_div t q c hc]

theorem minList_map_div_self {l : List ℚ} {m : ℚ} (h : minList l = some m)
    (hm : 0 < m) : minList (l.map (fun q => q / m)) = some 1 := by
  rw [minList_map_div l m hm.le, h, Option.map_some', div_self hm.ne.symm]

theorem one_le_of_mem_map_div {l : List ℚ} {m : ℚ} (h : minList l = some m)
    (hm : 0 < m) : ∀ q ∈ l.map (fun p => p / m), 1 ≤ q := by
  intro q hq
  rcases List.mem_map.mp hq with ⟨p, hp, rfl⟩
  exact (one_le_div hm).mpr (minList_le h p hp)

/-! ### Claims about `check_scal_vector` (C2, C3, C10) -/

/-- C2: for every nonempty scale-vector input with positive entries,
`check_scal_vector` divides every entry by the minimum entry exactly when
the minimum is below 1 or the input was a plain list (a plain list is
always divided, even when its minimum is `≥ 1`), and whenever the division
occurs the returned vector's minimum is exactly 1 and all entries are
`≥ 1`. -/
theorem c2_check_scal_vector_normalization (v : List ℚ) (b : Bool)
    (hne : v ≠ []) (hpos : ∀ q ∈ v, 0 < q) :
    ∃ m r after, minList v = some m ∧
      check_scal_vector (if b then .list v else .array v) = .ok (r, after) ∧
      r = (if b = true ∨ m < 1 then v.map (fun q => q / m) else v) ∧
      ((b = true ∨ m < 1) → minList r = some 1 ∧ ∀ q ∈ r, 1 ≤ q) := by
  obtain ⟨m, hm⟩ := minList_of_ne_nil hne
  have hmpos : 0 < m := minList_pos hm hpos
  have hdiv : minList (v.map (fun q => q / m)) = some 1 ∧
      ∀ q ∈ v.map (fun p => p / m), 1 ≤ q :=
    ⟨minList_map_div_self hm hmpos, one_le_of_mem_map_div hm hmpos⟩
  cases b with
  | true =>
      exact ⟨m, v.map (fun q => q / m), .list v,
        hm, by simp [check_scal_vector, hm], by simp, fun _ => hdiv⟩
  | false =>
      by_cases hlt : m < 1
      · exact ⟨m, v.map (fun q => q / m), .array (v.map (fun q => q / m)),
          hm, by simp [check_scal_vector, hm, hlt], by simp [hlt], fun _ => hdiv⟩
      · refine ⟨m, v, .array v, hm, by simp [check_scal_vector, hm, hlt], ?_, ?_⟩
        · simp [hlt]
        · intro hcond
          rcases hcond with hb | hlt1
          · exact absurd hb (by simp)
          · exact absurd hlt1 hlt

/-- C2 witness: the array input `[1/2, 1]` is normalized to `[1, 2]`, whose
minimum is exactly 1. -/
theorem c2_check_scal_vector_normalization_witness :
    ∃ m r after, minList [(1 : ℚ)/2, 1] = some m ∧
      check_scal_vector (if false then .list [(1 : ℚ)/2, 1] else .array [(1 : ℚ)/2, 1]) =
        .ok (r, after) ∧
      r = (if false = true ∨ m < 1 then [(1 : ℚ)/2, 1].map (fun q => q / m)
           else [(1 : ℚ)/2, 1]) ∧
      ((false = true ∨ m < 1) → minList r = some 1 ∧ ∀ q ∈ r, 1 ≤ q) :=
  c2_check_scal_vector_normalization [(1 : ℚ)/2, 1] false (by simp)
    (by intro q hq; rcases List.mem_cons.mp hq with h | h
        · subst h; norm_num
        · simp at h; subst h; norm_num)

/-- C3 counterexample: `check_scal_vector` applied to the ndarray
`[1/2, 2]` divides the caller's array in place — after the call the
input's content is `[1, 4]`, not the original `[1/2, 2]`, so the claim
that no operation mutates its input arrays is false. -/
theorem c3_mutation_counterexample :
    check_scal_vector (.array [(1 : ℚ)/2, 2]) =
      .ok ([1, 4], .array [1, 4]) ∧
    ScalVecIn.array [(1 : ℚ), 4] ≠ ScalVecIn.array [(1 : ℚ)/2, 2] := by
  constructor
  · norm_num [check_scal_vector, minList, min_def]
  · intro h
    simp only [ScalVecIn.array.injEq, List.cons.injEq] at h
    exact absurd h.1 (by norm_num)

/-- C3 amended: `check_scal_vector` leaves a plain-list input unchanged
(it copies it into a fresh array), but an ndarray input whose minimum is
below 1 is divided in place — after the call the caller's array holds the
normalized values, which are also what is returned (no fresh allocation);
an ndarray whose minimum is `≥ 1` is returned as is, also unchanged.  The
other operations of the module are modelled as pure functions of their
inputs. -/
theorem c3_amended_mutation_behavior :
    (∀ l r after, check_scal_vector (.list l) = .ok (r, after) →
      after = .list l) ∧
    (∀ v m, minList v = some m → m < 1 →
      check_scal_vector (.array v) =
        .ok (v.map (fun q => q / m), .array (v.map (fun q => q / m)))) ∧
    (∀ v m, minList v = some m → ¬ m < 1 →
      check_scal_vector (.array v) = .ok (v, .array v)) := by
  refine ⟨?_, ?_, ?_⟩
  · intro l r after h
    cases hl : minList l with
    | none => simp [check_scal_vector, hl] at h
    | some m =>
        simp only [check_scal_vector, hl, Except.ok.injEq, Prod.mk.injEq] at h
        exact h.2.symm
  · intro v m hm hlt; simp [check_scal_vector, hm, hlt]
  · intro v m hm hlt; simp [check_scal_vector, hm, hlt]

/-- C3 amended witness: the ndarray `[1/3, 1]` (minimum `1/3 < 1`) is
normalized in place to `[1, 3]`. -/
theorem c3_amended_mutation_behavior_witness :
    check_scal_vector (.array [(1 : ℚ)/3, 1]) = .ok ([1, 3], .array [1, 3]) := by
  have h := c3_amended_mutation_behavior.2.1 [(1 : ℚ)/3, 1] (1/3)
    (by norm_num [minList, min_def]) (by norm_num)
  norm_num at h
  exact h

/-- C10: `check_scal_vector` is idempotent — whenever it succeeds on an
input with positive entries, applying it to the returned array again
returns that array unchanged (its minimum is `≥ 1`, so the second call
performs no normalization and no mutation). -/
theorem c10_check_scal_vector_idempotent (inp : ScalVecIn) (r : List ℚ)
    (after : ScalVecIn) (hok : check_scal_vector inp = .ok (r, after))
    (hpos : ∀ q ∈ inp.entries, 0 < q) :
    check_scal_vector (.array r) = .ok (r, .array r) := by
  cases inp with
  | other => simp [check_scal_vector] at hok
  | list l =>
      cases hl : minList l with
      | none => simp [check_scal_vector, hl] at hok
      | some m =>
          simp only [check_scal_vector, hl, Except.ok.injEq, Prod.mk.injEq] at hok
          have hmpos : 0 < m := minList_pos hl (by simpa [ScalVecIn.entries] using hpos)
          have h1 : minList r = some 1 := by
            rw [← hok.1]; exact minList_map_div_self hl hmpos
          simp [check_scal_vector, h1]
  | array v =>
      cases hv : minList v with
      | none => simp [check_scal_vector, hv] at hok
      | some m =>
          have hmpos : 0 < m := minList_pos hv (by simpa [ScalVecIn.entries] using hpos)
          by_cases hlt : m < 1
          · simp only [check_scal_vector, hv, hlt, if_pos, Except.ok.injEq,
              Prod.mk.injEq] at hok
            have h1 : minList r = some 1 := by
              rw [← hok.1]; exact minList_map_div_self hv hmpos
            simp [check_scal_vector, h1]
          · simp only [check_scal_vector, hv, hlt, if_neg, Except.ok.injEq,
              Prod.mk.injEq, not_false_iff] at hok
            have h1 : minList r = some m := by rw [← hok.1]; exact hv
            simp [check_scal_vector, h1, hlt]

/-- C10 witness: the list `[1/2, 1]` normalizes to `[1, 2]`, and applying
`check_scal_vector` to `[1, 2]` returns it unchanged. -/
theorem c10_check_scal_vector_idempotent_witness :
    check_scal_vector (.array [(1 : ℚ), 2]) = .ok ([1, 2], .array [1, 2]) :=
  c10_check_scal_vector_idempotent (.list [(1 : ℚ)/2, 1]) [1, 2] (.list [(1 : ℚ)/2, 1])
    (by norm_num [check_scal_vector, minList, min_def])
    (by intro q hq; rcases List.mem_cons.mp hq with h | h
        · subst h; norm_num
        · simp at h; subst h; norm_num)

/-! ### Helper lemmas about `grid` and `resolveRef`; concrete backends -/

theorem grid_length (r c : ℕ) (f : ℕ → ℕ → ℚ) : (grid r c f).length = r := by
  simp [grid]

theorem grid_row_length (r c : ℕ) (f : ℕ → ℕ → ℚ) :
    ∀ row ∈ grid r c f, row.length = c := by
  intro row hrow
  rcases List.mem_map.mp hrow with ⟨i, _, rfl⟩
  simp

theorem resolveRef_self (p : ℚ × ℚ) :
    resolveRef (some p.1) (some p.2) p = some p := by
  by_cases h : falsy (some p.1) = true ∧ falsy (some p.2) = true <;>
    simp [resolveRef, h]

theorem resolveRef_given {a b : ℚ} (hab : ¬(a = 0 ∧ b = 0)) (p : ℚ × ℚ) :
    resolveRef (some a) (some b) p = some (a, b) := by
  have h : ¬(falsy (some a) = true ∧ falsy (some b) = true) := by
    simpa [falsy] using hab
  simp [resolveRef, h]

/-- A concrete resize backend (constant zero), used to instantiate the
opaque `cv2.resize` pixel values in witnesses. -/
def kern0 : ResizeKern := fun _ _ _ _ _ => 0

/-- A concrete spline backend (constant zero) for witnesses. -/
def spline0 : SplineEval := fun _ _ => 0

/-- A concrete affine-warp backend (constant zero) for witnesses. -/
def warp0 : WarpEval := fun _ _ _ _ => 0

/-- A concrete spline backend returning the y-coordinate of the source
point it is asked to evaluate: it makes the inverse mapping used by
`frame_rescaling` directly observable in the output pixels. -/
def splineY : SplineEval := fun _ p => p.1

/-! ### Claims about `frame_rescaling` and `cube_rescaling` (C1, C7, C8, C9) -/

/-- C1: the claim says `cube_rescaling` returns the per-frame
`frame_rescaling` cube and its pixel-wise median; the code instead raises
on every input — its loop reads `for i in xrange(n): array_sc[i] =
frame_rescaling(array[i], ..., gamma=scaling_list[i], ...)`, but
`frame_rescaling` declares no parameter named `gamma` (its parameter is
`scale`), and the name `xrange` does not exist under Python 3.  Evaluated
here on a perfectly valid 1×1×1 cube with scale vector `[1]`. -/
theorem c1_cube_rescaling_always_raises :
    cube_rescaling (.arr3 [[[(1 : ℚ)]]]) [1] none none "cv2.warp_affine" =
      .error (.runtime
        "per-frame loop raises: name xrange is not defined / frame_rescaling got an unexpected keyword argument gamma") := by
  simp [cube_rescaling]

/-- C7: for every 2d frame, every reference point, every positive scale
factor and either recognized method, `frame_rescaling` returns a frame of
the same dimensions as the input (geometric_transform writes into
`np.zeros_like(array)`; warpAffine uses dsize `(shape[1], shape[0])`). -/
theorem c7_frame_rescaling_preserves_dims (spline : SplineEval)
    (warp : WarpEval) (m : Frame) (a b s : ℚ) (method : String) (hs : 0 < s)
    (hmeth : method = "geometric_transform" ∨ method = "cv2.warp_affine") :
    ∃ out, frame_rescaling spline warp (.arr2 m) (some a) (some b) s method =
        .ok out ∧ out.length = m.length ∧ ∀ row ∈ out, row.length = cols m := by
  obtain ⟨p, hp⟩ : ∃ p,
      resolveRef (some a) (some b) (frame_center (rows m) (cols m)) = some p := by
    by_cases h : falsy (some a) = true ∧ falsy (some b) = true <;>
      simp [resolveRef, h]
  obtain ⟨ry, rx⟩ := p
  rcases hmeth with h | h <;> subst h
  · refine ⟨grid (rows m) (cols m)
      (fun oy ox => spline m (scale_func ry rx s ((oy : ℚ), (ox : ℚ)))), ?_, ?_, ?_⟩
    · simp [frame_rescaling, hp, hs.ne.symm]
    · exact grid_length (rows m) (cols m) _
    · exact grid_row_length (rows m) (cols m) _
  · refine ⟨grid (rows m) (cols m)
      (fun oy ox => warp m (warpMatrix s rx ry) oy ox), ?_, ?_, ?_⟩
    · simp [frame_rescaling, hp]
    · exact grid_length (rows m) (cols m) _
    · exact grid_row_length (rows m) (cols m) _

/-- C7 witness: a 2×2 frame rescaled by 2 with the affine-warp method keeps
its 2×2 dimensions. -/
theorem c7_frame_rescaling_preserves_dims_witness :
    ∃ out, frame_rescaling spline0 warp0 (.arr2 [[(1 : ℚ), 2], [3, 4]])
        (some 1) (some 1) 2 "cv2.warp_affine" = .ok out ∧
      out.length = ([[(1 : ℚ), 2], [3, 4]] : Frame).length ∧
      ∀ row ∈ out, row.length = cols [[(1 : ℚ), 2], [3, 4]] :=
  c7_frame_rescaling_preserves_dims spline0 warp0 [[(1 : ℚ), 2], [3, 4]]
    1 1 2 "cv2.warp_affine" (by norm_num) (Or.inr rfl)

/-- C8 counterexample: the claim asserts the inverse mapping is evaluated
about the given reference point for *every* reference point; at the
reference point `(0, 0)` the code treats both coordinates as unset and
uses the frame center instead.  With a spline backend that reports the
source y-coordinate, a 3×3 frame at scale 2 yields rows `1/2, 1, 3/2`
(center `(1,1)` reference), not the rows `0, 1/2, 1` the claimed formula
with reference `(0, 0)` would produce. -/
theorem c8_reference_zero_counterexample :
    frame_rescaling splineY warp0 (.arr2 [[0, 0, 0], [0, 0, 0], [0, 0, 0]])
        (some 0) (some 0) 2 "geometric_transform" =
      .ok [[1/2, 1/2, 1/2], [1, 1, 1], [3/2, 3/2, 3/2]] ∧
    ([[(1 : ℚ)/2, 1/2, 1/2], [1, 1, 1], [3/2, 3/2, 3/2]] : Frame) ≠
      grid 3 3 (fun oy ox => splineY [[0, 0, 0], [0, 0, 0], [0, 0, 0]]
        (scale_func 0 0 2 ((oy : ℚ), (ox : ℚ)))) := by
  constructor
  · norm_num [frame_rescaling, resolveRef, falsy, frame_center, rows, cols,
      grid, scale_func, splineY, List.range_succ]
  · intro h
    have := congrArg (fun l => l.headD []) h
    norm_num [grid, scale_func, splineY, List.range_succ] at this

/-- C8 amended: for every 2d frame, positive scale factor and reference
point *other than* `(0, 0)` (which the falsy check treats as unset, see
C9), the geometric-transform method evaluates the interpolant of the
source frame at `(ref_y + (oy - ref_y)/s, ref_x + (ox - ref_x)/s)` for
every output pixel `(oy, ox)`, the affine-warp method applies the affine
transform with matrix `[[s, 0, (1-s)*ref_x], [0, s, (1-s)*ref_y]]`, and an
unrecognized method name raises InvalidInput. -/
theorem c8_amended_frame_rescaling_mapping (spline : SplineEval)
    (warp : WarpEval) (m : Frame) (a b s : ℚ) (method : String) (hs : 0 < s)
    (hab : ¬(a = 0 ∧ b = 0)) :
    frame_rescaling spline warp (.arr2 m) (some a) (some b) s
        "geometric_transform" =
      .ok (grid (rows m) (cols m)
        (fun oy ox => spline m (scale_func a b s ((oy : ℚ), (ox : ℚ))))) ∧
    frame_rescaling spline warp (.arr2 m) (some a) (some b) s
        "cv2.warp_affine" =
      .ok (grid (rows m) (cols m)
        (fun oy ox => warp m (warpMatrix s b a) oy ox)) ∧
    (method ≠ "geometric_transform" → method ≠ "cv2.warp_affine" →
      frame_rescaling spline warp (.arr2 m) (some a) (some b) s method =
        .error (.invalidInput
          "Pick a valid method: geometric_transform or cv2.warp_affine")) := by
  have hres := resolveRef_given hab (frame_center (rows m) (cols m))
  refine ⟨?_, ?_, ?_⟩
  · simp [frame_rescaling, hres, hs.ne.symm]
  · simp [frame_rescaling, hres]
  · intro h1 h2
    simp [frame_rescaling, hres, h1, h2]

/-- C8 amended witness: reference `(1, 0)`, scale 2, on a 1×1 frame. -/
theorem c8_amended_frame_rescaling_mapping_witness :
    frame_rescaling spline0 warp0 (.arr2 [[(5 : ℚ)]]) (some 1) (some 0) 2
        "geometric_transform" =
      .ok (grid (rows [[(5 : ℚ)]]) (cols [[(5 : ℚ)]])
        (fun oy ox => spline0 [[(5 : ℚ)]]
          (scale_func 1 0 2 ((oy : ℚ), (ox : ℚ))))) ∧
    frame_rescaling spline0 warp0 (.arr2 [[(5 : ℚ)]]) (some 1) (some 0) 2
        "cv2.warp_affine" =
      .ok (grid (rows [[(5 : ℚ)]]) (cols [[(5 : ℚ)]])
        (fun oy ox => warp0 [[(5 : ℚ)]] (warpMatrix 2 0 1) oy ox)) ∧
    ("median" ≠ "geometric_transform" → "median" ≠ "cv2.warp_affine" →
      frame_rescaling spline0 warp0 (.arr2 [[(5 : ℚ)]]) (some 1) (some 0) 2
          "median" =
        .error (.invalidInput
          "Pick a valid method: geometric_transform or cv2.warp_affine")) :=
  c8_amended_frame_rescaling_mapping spline0 warp0 [[(5 : ℚ)]] 1 0 2 "median"
    (by norm_num) (by norm_num)

/-- C9: in `frame_rescaling` and `cube_rescaling` the default reference
point is the frame's geometric center, and a reference coordinate equal to
exactly 0 counts as unset: whenever both `ref_y` and `ref_x` are falsy
(`None` or 0), the defaulting line substitutes the center of the frame
(of the first frame, for `cube_rescaling`), so the two functions behave as
if called with the center as explicit reference. -/
theorem c9_default_reference_center (spline : SplineEval) (warp : WarpEval)
    (m : Frame) (ref_y ref_x : Option ℚ) (s : ℚ) (method : String)
    (c : Cube) (scal : List ℚ) (hy : falsy ref_y = true)
    (hx : falsy ref_x = true) (hc : c ≠ []) :
    resolveRef ref_y ref_x (frame_center (rows m) (cols m)) =
      some (frame_center (rows m) (cols m)) ∧
    frame_rescaling spline warp (.arr2 m) ref_y ref_x s method =
      frame_rescaling spline warp (.arr2 m)
        (some (frame_center (rows m) (cols m)).1)
        (some (frame_center (rows m) (cols m)).2) s method ∧
    cube_rescaling (.arr3 c) scal ref_y ref_x method =
      cube_rescaling (.arr3 c) scal
        (some (frame_center (rows (c.headD [])) (cols (c.headD []))).1)
        (some (frame_center (rows (c.headD [])) (cols (c.headD []))).2)
        method := by
  have h1 : resolveRef ref_y ref_x (frame_center (rows m) (cols m)) =
      some (frame_center (rows m) (cols m)) := by
    simp [resolveRef, hy, hx]
  refine ⟨h1, ?_, ?_⟩
  · simp only [frame_rescaling, h1, resolveRef_self]
  · simp [cube_rescaling, hc]

/-- C9 witness: `ref_y = None`, `ref_x = 0` on a 2×2 frame and a 1×1×1
cube: both functions behave as if called with the frame centers. -/
theorem c9_default_reference_center_witness :
    resolveRef none (some 0)
        (frame_center (rows [[(1 : ℚ), 2], [3, 4]]) (cols [[(1 : ℚ), 2], [3, 4]])) =
      some (frame_center (rows [[(1 : ℚ), 2], [3, 4]]) (cols [[(1 : ℚ), 2], [3, 4]])) ∧
    frame_rescaling spline0 warp0 (.arr2 [[(1 : ℚ), 2], [3, 4]]) none (some 0) 1
        "geometric_transform" =
      frame_rescaling spline0 warp0 (.arr2 [[(1 : ℚ), 2], [3, 4]])
        (some (frame_center (rows [[(1 : ℚ), 2], [3, 4]]) (cols [[(1 : ℚ), 2], [3, 4]])).1)
        (some (frame_center (rows [[(1 : ℚ), 2], [3, 4]]) (cols [[(1 : ℚ), 2], [3, 4]])).2)
        1 "geometric_transform" ∧
    cube_rescaling (.arr3 [[[(1 : ℚ)]]]) [1] none (some 0) "cv2.warp_affine" =
      cube_rescaling (.arr3 [[[(1 : ℚ)]]]) [1]
        (some (frame_center (rows (([[[(1 : ℚ)]]] : Cube).headD []))
          (cols (([[[(1 : ℚ)]]] : Cube).headD []))).1)
        (some (frame_center (rows (([[[(1 : ℚ)]]] : Cube).headD []))
          (cols (([[[(1 : ℚ)]]] : Cube).headD []))).2)
        "cv2.warp_affine" :=
  c9_default_reference_center spline0 warp0 [[(1 : ℚ), 2], [3, 4]] none (some 0)
    1 "geometric_transform" [[[(1 : ℚ)]]] [1] rfl (by norm_num [falsy]) (by simp)

/-! ### Claim C6: which inputs raise InvalidInput -/

/-- Whether a call outcome is an InvalidInput error (one of the module's
own eager `TypeError`/`ValueError` validations), as opposed to success or
a runtime failure of a backend. -/
def isInvalidInput {α : Type} : Except Err α → Bool
  | .error (.invalidInput _) => true
  | _ => false

theorem cv2_resize_not_invalid (kern : ResizeKern) (m : Frame) (s : ℚ)
    (interp : String) : isInvalidInput (cv2_resize kern m s interp) = false := by
  simp only [cv2_resize]
  split
  · rfl
  · split
    · rfl
    · rfl

theorem frame_px_invalid_iff (kern : ResizeKern) (a : NDArr) (s : ℚ)
    (interp : String) :
    isInvalidInput (frame_px_resampling kern a s interp) = true ↔
      (a.ndim ≠ 2 ∨ recognizedInterp interp = false) := by
  cases a with
  | arr1 l => simp [frame_px_resampling, isInvalidInput, NDArr.ndim]
  | arr3 c => simp [frame_px_resampling, isInvalidInput, NDArr.ndim]
  | arr2 m =>
      by_cases h : recognizedInterp interp = true
      · simp [frame_px_resampling, h, cv2_resize_not_invalid, NDArr.ndim]
      · simp only [Bool.not_eq_true] at h
        simp [frame_px_resampling, h, isInvalidInput, NDArr.ndim]

theorem resampleFrames_not_invalid_of_recognized (kern : ResizeKern) (s : ℚ)
    (interp : String) (oy ox : ℕ) (h : recognizedInterp interp = true)
    (l : List Frame) :
    isInvalidInput (resampleFrames kern s interp oy ox l) = false := by
  induction l with
  | nil => rfl
  | cons f fs ih =>
      rcases hcv : cv2_resize kern f s interp with e | r
      · have hni := cv2_resize_not_invalid kern f s interp
        rw [hcv] at hni
        cases e with
        | invalidInput msg => simp [isInvalidInput] at hni
        | runtime msg =>
            simp only [resampleFrames, frame_px_resampling, h, if_true, hcv]
            rfl
      · rcases hrec : resampleFrames kern s interp oy ox fs with e | rs
        · rw [hrec] at ih
          cases e with
          | invalidInput msg => simp [isInvalidInput] at ih
          | runtime msg =>
              simp only [resampleFrames, frame_px_resampling, h, if_true, hcv,
                hrec]
              split
              · rfl
              · rfl
        · simp only [resampleFrames, frame_px_resampling, h, if_true, hcv, hrec]
          split
          · rfl
          · rfl

theorem resampleFrames_invalid_of_unrecognized (kern : ResizeKern) (s : ℚ)
    (interp : String) (oy ox : ℕ) (h : recognizedInterp interp = false)
    (f : Frame) (fs : List Frame) :
    isInvalidInput (resampleFrames kern s interp oy ox (f :: fs)) = true := by
  simp [resampleFrames, frame_px_resampling, h, isInvalidInput]

theorem resampleFrames_invalid_iff (kern : ResizeKern) (s : ℚ)
    (interp : String) (oy ox : ℕ) (l : List Frame) :
    isInvalidInput (resampleFrames kern s interp oy ox l) = true ↔
      (l ≠ [] ∧ recognizedInterp interp = false) := by
  cases l with
  | nil => simp [resampleFrames, isInvalidInput]
  | cons f fs =>
      by_cases h : recognizedInterp interp = true
      · simp [resampleFrames_not_invalid_of_recognized kern s interp oy ox h, h]
      · simp only [Bool.not_eq_true] at h
        simp [resampleFrames_invalid_of_unrecognized kern s interp oy ox h, h]

/-- C6 counterexample: the claim says `cube_px_resampling` raises
InvalidInput **only** on non-3d input; but on a perfectly 3-dimensional
1×1×1 cube with the unrecognized interpolation name `nneighbor` (the
docstring's own typo) the per-frame call propagates `frame_px_resampling`'s
InvalidInput. -/
theorem c6_cube_invalid_on_3d_counterexample :
    cube_px_resampling kern0 (.arr3 [[[(1 : ℚ)]]]) 1 "nneighbor" =
      .error (.invalidInput "Interpolation method not recognized.") ∧
    NDArr.ndim (.arr3 [[[(1 : ℚ)]]]) = 3 := by
  constructor
  · have hrec : recognizedInterp "nneighbor" = false := by decide
    norm_num [cube_px_resampling, rows, cols, resampleFrames,
      frame_px_resampling, hrec]
  · rfl

/-- C6 amended: for every nonnegative scale factor,
`frame_px_resampling` raises InvalidInput iff its input is not exactly
2-dimensional or its interpolation name is not one of the three recognized
kernels, and `cube_px_resampling` raises InvalidInput iff its input is not
exactly 3-dimensional **or** the cube is nonempty and the interpolation
name is unrecognized (the per-frame call's error propagates); in
particular it still raises on a 2d array and `frame_px_resampling` on a 3d
array.  (The cube's interpolation error is raised after the output
allocation, not before.) -/
theorem c6_amended_invalid_input_conditions (kern : ResizeKern) (a : NDArr)
    (s : ℚ) (interp : String) (hs : 0 ≤ s) :
    (isInvalidInput (frame_px_resampling kern a s interp) = true ↔
      (a.ndim ≠ 2 ∨ recognizedInterp interp = false)) ∧
    (isInvalidInput (cube_px_resampling kern a s interp) = true ↔
      (a.ndim ≠ 3 ∨ ∃ c, a = .arr3 c ∧ c ≠ [] ∧
        recognizedInterp interp = false)) := by
  refine ⟨frame_px_invalid_iff kern a s interp, ?_⟩
  cases a with
  | arr1 l => simp [cube_px_resampling, isInvalidInput, NDArr.ndim]
  | arr2 m => simp [cube_px_resampling, isInvalidInput, NDArr.ndim]
  | arr3 c =>
      simp only [cube_px_resampling, NDArr.ndim]
      split
      · next hneg =>
          rcases hneg with h1 | h1
          · exact absurd h1 (not_lt.mpr (mul_nonneg (Nat.cast_nonneg _) hs))
          · exact absurd h1 (not_lt.mpr (mul_nonneg (Nat.cast_nonneg _) hs))
      · rw [resampleFrames_invalid_iff]
        simp

/-- C6 amended witness: instantiated at a 1×1×1 cube with scale 1 and the
unrecognized name `nneighbor`. -/
theorem c6_amended_invalid_input_conditions_witness :
    (isInvalidInput (frame_px_resampling kern0 (.arr3 [[[(1 : ℚ)]]]) 1 "nneighbor") = true ↔
      (NDArr.ndim (.arr3 [[[(1 : ℚ)]]]) ≠ 2 ∨ recognizedInterp "nneighbor" = false)) ∧
    (isInvalidInput (cube_px_resampling kern0 (.arr3 [[[(1 : ℚ)]]]) 1 "nneighbor") = true ↔
      (NDArr.ndim (.arr3 [[[(1 : ℚ)]]]) ≠ 3 ∨ ∃ c, NDArr.arr3 [[[(1 : ℚ)]]] = .arr3 c ∧
        c ≠ [] ∧ recognizedInterp "nneighbor" = false)) :=
  c6_amended_invalid_input_conditions kern0 (.arr3 [[[(1 : ℚ)]]]) 1 "nneighbor"
    (by norm_num)

/-! ### Claim C4: cube resampling dimensions -/

theorem frame_px_ok_of (kern : ResizeKern) (f : Frame) (s : ℚ)
    (interp : String) (y x : ℕ) (hin : recognizedInterp interp = true)
    (hr : rows f = y) (hc : cols f = x) (hy0 : 0 < y) (hx0 : 0 < x)
    (hfy : cvRound ((y : ℚ) * s) = ⌊(y : ℚ) * s⌋)
    (hfx : cvRound ((x : ℚ) * s) = ⌊(x : ℚ) * s⌋)
    (hpy : 0 < ⌊(y : ℚ) * s⌋) (hpx : 0 < ⌊(x : ℚ) * s⌋) :
    frame_px_resampling kern (.arr2 f) s interp =
      .ok (grid (⌊(y : ℚ) * s⌋).toNat (⌊(x : ℚ) * s⌋).toNat (kern f s interp)) := by
  simp only [frame_px_resampling, hin, if_true, cv2_resize, hr, hc, hfy, hfx]
  rw [if_neg (not_or.mpr ⟨hy0.ne.symm, hx0.ne.symm⟩),
    if_neg (not_or.mpr ⟨not_le.mpr hpy, not_le.mpr hpx⟩)]

theorem resampleFrames_ok_of (kern : ResizeKern) (s : ℚ) (interp : String)
    (oy ox : ℕ) (l : List Frame)
    (h : ∀ f ∈ l, frame_px_resampling kern (.arr2 f) s interp =
      .ok (grid oy ox (kern f s interp))) :
    resampleFrames kern s interp oy ox l =
      .ok (l.map (fun f => grid oy ox (kern f s interp))) := by
  induction l with
  | nil => rfl
  | cons f fs ih =>
      have hf := h f (List.mem_cons_self f fs)
      have hrest := ih (fun g hg => h g (List.mem_cons_of_mem f hg))
      simp only [resampleFrames, hf, hrest]
      rw [if_pos ⟨grid_length oy ox _, by simp [grid, List.all_eq_true]⟩]
      simp

/-- C4 counterexample: the claim says the output cube has dimensions
`(n, round(y*s), round(x*s))`; on the 1×1×1 cube with scale `3/2` the code
preallocates `int(1*1.5) = 1` rows per frame while `cv2.resize` produces a
round-to-nearest 2×2 frame, so the per-frame assignment fails with a
broadcast error instead of returning a `(1, 2, 2)` cube. -/
theorem c4_dims_counterexample :
    cube_px_resampling kern0 (.arr3 [[[(37 : ℚ)]]]) (3/2) "bicubic" =
      .error (.runtime "could not broadcast input array") := by
  have h1 : (⌊(3 : ℚ)/2⌋ : ℤ) = 1 := by
    rw [Int.floor_eq_iff]
    norm_num
  have hcv : cvRound ((3 : ℚ)/2) = 2 := by
    simp only [cvRound, h1]
    norm_num
  norm_num [cube_px_resampling, rows, cols, resampleFrames,
    frame_px_resampling, recognizedInterp, cv2_resize, hcv, h1, grid,
    Int.toNat_ofNat, Int.toNat_one]
  intro hcon h2
  exact absurd hcon (by decide)

/-- C4 amended: whenever cv2's round-to-nearest destination size
`cvRound(dim*s)` agrees with the truncation `int(dim*s)` used for the
output allocation (and those sizes are positive, the interpolation name
recognized, the scale positive), `cube_px_resampling` on an `(n, y, x)`
cube returns a cube of dimensions `(n, int(y*s), int(x*s))` — floor, not
round — whose frame `i` equals `frame_px_resampling` of input frame `i`
with factor `s`, in frame order; otherwise the per-frame assignment
raises a broadcast error (see the counterexample). -/
theorem c4_amended_cube_px_resampling (kern : ResizeKern) (c : Cube) (s : ℚ)
    (interp : String) (y x : ℕ) (hy : y = rows (c.headD []))
    (hx : x = cols (c.headD []))
    (hrect : ∀ f ∈ c, rows f = y ∧ ∀ row ∈ f, row.length = x)
    (hs : 0 < s) (hin : recognizedInterp interp = true)
    (hfy : cvRound ((y : ℚ) * s) = ⌊(y : ℚ) * s⌋)
    (hfx : cvRound ((x : ℚ) * s) = ⌊(x : ℚ) * s⌋)
    (hpy : 0 < ⌊(y : ℚ) * s⌋) (hpx : 0 < ⌊(x : ℚ) * s⌋) :
    cube_px_resampling kern (.arr3 c) s interp =
      .ok (c.map (fun f =>
        grid (⌊(y : ℚ) * s⌋).toNat (⌊(x : ℚ) * s⌋).toNat (kern f s interp))) ∧
    (∀ f ∈ c, frame_px_resampling kern (.arr2 f) s interp =
      .ok (grid (⌊(y : ℚ) * s⌋).toNat (⌊(x : ℚ) * s⌋).toNat (kern f s interp))) ∧
    (c.map (fun f => grid (⌊(y : ℚ) * s⌋).toNat (⌊(x : ℚ) * s⌋).toNat
        (kern f s interp))).length = c.length ∧
    (∀ g ∈ c.map (fun f => grid (⌊(y : ℚ) * s⌋).toNat (⌊(x : ℚ) * s⌋).toNat
        (kern f s interp)),
      rows g = (⌊(y : ℚ) * s⌋).toNat ∧
        ∀ row ∈ g, row.length = (⌊(x : ℚ) * s⌋).toNat) := by
  have hy0 : 0 < y := by
    rcases Nat.eq_zero_or_pos y with h0 | h0
    · subst h0
      simp at hpy
    · exact h0
  have hx0 : 0 < x := by
    rcases Nat.eq_zero_or_pos x with h0 | h0
    · subst h0
      simp at hpx
    · exact h0
  have hcols : ∀ f ∈ c, cols f = x := by
    intro f hf
    have h1 := (hrect f hf).1
    cases f with
    | nil =>
        exfalso
        simp [rows] at h1
        omega
    | cons r0 rf => exact (hrect _ hf).2 r0 (List.mem_cons_self _ _)
  have hframe : ∀ f ∈ c, frame_px_resampling kern (.arr2 f) s interp =
      .ok (grid (⌊(y : ℚ) * s⌋).toNat (⌊(x : ℚ) * s⌋).toNat (kern f s interp)) :=
    fun f hf => frame_px_ok_of kern f s interp y x hin (hrect f hf).1
      (hcols f hf) hy0 hx0 hfy hfx hpy hpx
  have hneg : ¬((y : ℚ) * s < 0 ∨ (x : ℚ) * s < 0) :=
    not_or.mpr ⟨not_lt.mpr (mul_nonneg (Nat.cast_nonneg y) hs.le),
      not_lt.mpr (mul_nonneg (Nat.cast_nonneg x) hs.le)⟩
  refine ⟨?_, hframe, by simp, ?_⟩
  · simp only [cube_px_resampling, ← hy, ← hx]
    rw [if_neg hneg, resampleFrames_ok_of kern s interp _ _ c hframe]
  · intro g hg
    rcases List.mem_map.mp hg with ⟨f, hf, rfl⟩
    exact ⟨grid_length _ _ _, grid_row_length _ _ _⟩

/-- C4 amended witness: a 1×2×2 cube scaled by 2 yields a 1×4×4 cube whose
single frame is the `frame_px_resampling` output. -/
theorem c4_amended_cube_px_resampling_witness :
    cube_px_resampling kern0 (.arr3 [[[(5 : ℚ), 6], [7, 8]]]) 2 "bicubic" =
      .ok ([[[(5 : ℚ), 6], [7, 8]]].map (fun f =>
        grid (⌊((2 : ℕ) : ℚ) * 2⌋).toNat (⌊((2 : ℕ) : ℚ) * 2⌋).toNat
          (kern0 f 2 "bicubic"))) ∧
    (∀ f ∈ [[[(5 : ℚ), 6], [7, 8]]], frame_px_resampling kern0 (.arr2 f) 2 "bicubic" =
      .ok (grid (⌊((2 : ℕ) : ℚ) * 2⌋).toNat (⌊((2 : ℕ) : ℚ) * 2⌋).toNat
        (kern0 f 2 "bicubic"))) ∧
    ([[[(5 : ℚ), 6], [7, 8]]].map (fun f =>
      grid (⌊((2 : ℕ) : ℚ) * 2⌋).toNat (⌊((2 : ℕ) : ℚ) * 2⌋).toNat
        (kern0 f 2 "bicubic"))).length = [[[(5 : ℚ), 6], [7, 8]]].length ∧
    (∀ g ∈ [[[(5 : ℚ), 6], [7, 8]]].map (fun f =>
      grid (⌊((2 : ℕ) : ℚ) * 2⌋).toNat (⌊((2 : ℕ) : ℚ) * 2⌋).toNat
        (kern0 f 2 "bicubic")),
      rows g = (⌊((2 : ℕ) : ℚ) * 2⌋).toNat ∧
        ∀ row ∈ g, row.length = (⌊((2 : ℕ) : ℚ) * 2⌋).toNat) :=
  c4_amended_cube_px_resampling kern0 [[[(5 : ℚ), 6], [7, 8]]] 2 "bicubic" 2 2
    rfl rfl
    (by intro f hf
        simp only [List.mem_singleton] at hf
        subst hf
        refine ⟨rfl, ?_⟩
        intro row hr
        rcases List.mem_cons.mp hr with h | h
        · subst h; rfl
        · simp at h; subst h; rfl)
    (by norm_num) (by decide)
    (by have h4 : (⌊(4 : ℚ)⌋ : ℤ) = 4 := by
          rw [Int.floor_eq_iff]
          norm_num
        norm_num [cvRound, h4])
    (by have h4 : (⌊(4 : ℚ)⌋ : ℤ) = 4 := by
          rw [Int.floor_eq_iff]
          norm_num
        norm_num [cvRound, h4])
    (by have h4 : (⌊(4 : ℚ)⌋ : ℤ) = 4 := by
          rw [Int.floor_eq_iff]
          norm_num
        norm_num [h4])
    (by have h4 : (⌊(4 : ℚ)⌋ : ℤ) = 4 := by
          rw [Int.floor_eq_iff]
          norm_num
        norm_num [h4])

/-! ### Claim C5: the padding stage of `scale_cube` -/

theorem padFrame_length (py px x : ℕ) (f : Frame) :
    (padFrame py px x f).length = f.length + 2 * py := by
  simp [padFrame]
  ring

theorem padFrame_row_length (py px x : ℕ) (f : Frame)
    (hrect : ∀ row ∈ f, row.length = x) :
    ∀ row ∈ padFrame py px x f, row.length = x + 2 * px := by
  intro row hrow
  simp only [padFrame, List.mem_append, List.mem_replicate, List.mem_map] at hrow
  rcases hrow with (⟨_, rfl⟩ | ⟨r, hr, rfl⟩) | ⟨_, rfl⟩
  · simp
  · simp [hrect r hr]
    ring
  · simp

theorem ceilAdj_ge (max_sc : ℚ) (d : ℕ) (h1 : 1 ≤ max_sc) :
    d ≤ (⌈max_sc * (d : ℚ)⌉).toNat := by
  have hle : ((d : ℤ) : ℚ) ≤ max_sc * (d : ℚ) := by
    push_cast
    exact le_mul_of_one_le_left (Nat.cast_nonneg d) h1
  have h2 : (d : ℤ) ≤ ⌈max_sc * (d : ℚ)⌉ := by
    calc (d : ℤ) = ⌈((d : ℤ) : ℚ)⌉ := (Int.ceil_intCast (d : ℤ)).symm
      _ ≤ ⌈max_sc * (d : ℚ)⌉ := Int.ceil_le_ceil hle
  exact_mod_cast Int.toNat_le_toNat h2

theorem ceilAdj_facts (max_sc : ℚ) (d : ℕ) (h1 : 1 ≤ max_sc) :
    (ceilAdj max_sc d - d) % 2 = 0 ∧ d ≤ ceilAdj max_sc d ∧
    (⌈max_sc * (d : ℚ)⌉).toNat ≤ ceilAdj max_sc d ∧
    ceilAdj max_sc d ≤ (⌈max_sc * (d : ℚ)⌉).toNat + 1 := by
  have hge := ceilAdj_ge max_sc d h1
  by_cases hpar : ((⌈max_sc * (d : ℚ)⌉).toNat - d) % 2 ≠ 0
  · simp [ceilAdj, hpar]
    omega
  · simp [ceilAdj, hpar]
    omega

/-- C5 counterexample: on a 1×3×3 cube with scale vector `[3/2]`
(`max_sc = 3/2 > 1`, forward direction) the padded frame size is
`ceil(4.5) = 5` and, because `5 - 3` is even, no adjustment is made —
the padded dimension is 5, an odd number, not "rounded up to the nearest
even number" (which would be 6) as the claim states.  The code adjusts the
parity of the pad *difference*, not of the new dimension. -/
theorem c5_parity_counterexample :
    scale_cube_big [[[0, 0, 0], [0, 0, 0], [0, 0, 0]]] [3/2] false =
      .ok [List.replicate 5 (List.replicate 5 (0 : ℚ))] ∧ (5 : ℕ) % 2 = 1 := by
  constructor
  · have hceil : (⌈(9 : ℚ)/2⌉ : ℤ) = 5 := by
      rw [Int.ceil_eq_iff]
      norm_num
    norm_num [scale_cube_big, maxList, rows, cols, ceilAdj, hceil, padFrame,
      List.replicate]
  · rfl

/-- C5 amended: for a cube of shape `(n, y, x)` and a scale vector with
maximum `max_sc`, `scale_cube` without `inverse` and with `max_sc > 1`
zero-pads every frame symmetrically to dimensions
`new_d = ceil(max_sc*d) + (1 if ceil(max_sc*d) - d is odd else 0)` — i.e.
the ceiling is bumped so that the padding *difference* on each axis is
even (which equals rounding up to the nearest even number only when the
input dimension is even); otherwise (`inverse` or `max_sc <= 1`) it
performs no padding and works on a copy of the original cube. -/
theorem c5_amended_scale_cube_padding (cube : Cube) (scal : List ℚ)
    (inverse : Bool) (y x : ℕ) (max_sc : ℚ)
    (hy : y = rows (cube.headD [])) (hx : x = cols (cube.headD []))
    (hmax : maxList scal = some max_sc)
    (hrect : ∀ f ∈ cube, rows f = y ∧ ∀ row ∈ f, row.length = x) :
    (inverse = false → 1 < max_sc →
      scale_cube_big cube scal inverse =
        .ok (cube.map (padFrame ((ceilAdj max_sc y - y) / 2)
          ((ceilAdj max_sc x - x) / 2) x)) ∧
      (∀ g ∈ cube.map (padFrame ((ceilAdj max_sc y - y) / 2)
          ((ceilAdj max_sc x - x) / 2) x),
        rows g = ceilAdj max_sc y ∧ ∀ row ∈ g, row.length = ceilAdj max_sc x) ∧
      (ceilAdj max_sc y - y) % 2 = 0 ∧ (ceilAdj max_sc x - x) % 2 = 0 ∧
      (⌈max_sc * (y : ℚ)⌉).toNat ≤ ceilAdj max_sc y ∧
      ceilAdj max_sc y ≤ (⌈max_sc * (y : ℚ)⌉).toNat + 1) ∧
    ((inverse = true ∨ max_sc ≤ 1) →
      scale_cube_big cube scal inverse = .ok cube) := by
  constructor
  · intro hinv hsc
    subst hinv
    have hfy := ceilAdj_facts max_sc y hsc.le
    have hfx := ceilAdj_facts max_sc x hsc.le
    refine ⟨?_, ?_, hfy.1, hfx.1, hfy.2.2.1, hfy.2.2.2⟩
    · simp only [scale_cube_big, hmax, ← hy, ← hx]
      rw [if_pos ⟨by simp, hsc⟩]
    · intro g hg
      rcases List.mem_map.mp hg with ⟨f, hf, rfl⟩
      constructor
      · show (padFrame ((ceilAdj max_sc y - y) / 2) ((ceilAdj max_sc x - x) / 2)
          x f).length = ceilAdj max_sc y
        rw [padFrame_length]
        have := (hrect f hf).1
        simp only [rows] at this
        omega
      · intro row hrow
        have := padFrame_row_length ((ceilAdj max_sc y - y) / 2)
          ((ceilAdj max_sc x - x) / 2) x f (hrect f hf).2 row hrow
        rw [this]
        omega
  · intro h
    simp only [scale_cube_big, hmax, ← hy, ← hx]
    rw [if_neg]
    rcases h with h | h
    · simp [h]
    · exact fun hcon => absurd hcon.2 (not_lt.mpr h)

/-- C5 amended witness: a 1×2×2 cube with scale vector `[3/2]`:
`ceil(3) = 3`, `3 - 2` is odd so the dimension is bumped to 4, and the
cube is padded to 1×4×4. -/
theorem c5_amended_scale_cube_padding_witness :
    (false = false → 1 < (3 : ℚ)/2 →
      scale_cube_big [[[(1 : ℚ), 2], [3, 4]]] [3/2] false =
        .ok ([[[(1 : ℚ), 2], [3, 4]]].map (padFrame ((ceilAdj ((3 : ℚ)/2) 2 - 2) / 2)
          ((ceilAdj ((3 : ℚ)/2) 2 - 2) / 2) 2)) ∧
      (∀ g ∈ [[[(1 : ℚ), 2], [3, 4]]].map (padFrame ((ceilAdj ((3 : ℚ)/2) 2 - 2) / 2)
          ((ceilAdj ((3 : ℚ)/2) 2 - 2) / 2) 2),
        rows g = ceilAdj ((3 : ℚ)/2) 2 ∧ ∀ row ∈ g, row.length = ceilAdj ((3 : ℚ)/2) 2) ∧
      (ceilAdj ((3 : ℚ)/2) 2 - 2) % 2 = 0 ∧ (ceilAdj ((3 : ℚ)/2) 2 - 2) % 2 = 0 ∧
      (⌈(3 : ℚ)/2 * ((2 : ℕ) : ℚ)⌉).toNat ≤ ceilAdj ((3 : ℚ)/2) 2 ∧
      ceilAdj ((3 : ℚ)/2) 2 ≤ (⌈(3 : ℚ)/2 * ((2 : ℕ) : ℚ)⌉).toNat + 1) ∧
    ((false = true ∨ (3 : ℚ)/2 ≤ 1) →
      scale_cube_big [[[(1 : ℚ), 2], [3, 4]]] [3/2] false =
        .ok [[[(1 : ℚ), 2], [3, 4]]]) :=
  c5_amended_scale_cube_padding [[[(1 : ℚ), 2], [3, 4]]] [3/2] false 2 2 (3/2)
    rfl rfl rfl
    (by intro f hf
        simp only [List.mem_singleton] at hf
        subst hf
        refine ⟨rfl, ?_⟩
        intro row hr
        rcases List.mem_cons.mp hr with h | h
        · subst h; rfl
        · simp at h; subst h; rfl)

end VIPRescaling
